import Mathlib

/-!
Shallow embedding of `src/python/cord19q/etl.py` from the cord19q repository.

The ETL pipeline transforms a CORD-19 metadata table plus per-document JSON
body files into two relational tables (articles, sections).  Pure Python
functions become Lean functions; the SQLite database and the run counters
become explicit state threaded through `processRow`/`runRows`.  External
library boundaries (hashlib.sha1, dateutil.parser.parse, nltk sent_tokenize,
the filesystem, and the success of each `db.execute` insert attempt) are
parameters collected in an `Env` record, since their inner workings are not
part of this repository.  Exceptions that the source catches are modelled
with `Option`: `none` stands for a raised-and-caught exception.
-/

set_option autoImplicit false

namespace Cord19

/-- A parsed calendar date, standing in for the Python `datetime` values
returned by `dateutil.parser.parse`. -/
structure PDate where
  year : Nat
  month : Nat
  day : Nat
deriving DecidableEq, Repr, Inhabited

/-- A Python value bound into a SQLite row: `None`, a string, an integer
or a datetime. -/
inductive Value where
  | null : Value
  | str : String → Value
  | int : Int → Value
  | date : PDate → Value
deriving DecidableEq, Repr, Inhabited

/-- Check that `p` is a leading segment of `l` (character lists). -/
def prefixMatches : List Char → List Char → Bool
  | [], _ => true
  | _ :: _, [] => false
  | a :: as, b :: bs => a == b && prefixMatches as bs

/-- Check that `sub` occurs as a contiguous run inside `l` (character lists),
scanning left to right; models Python `sub in l`. -/
def listContainsSub (sub : List Char) : List Char → Bool
  | [] => sub.isEmpty
  | b :: bs => prefixMatches sub (b :: bs) || listContainsSub sub bs

/-- Python `sub in hay` substring test on strings. -/
def containsSubstr (hay sub : String) : Bool :=
  listContainsSub sub.toList hay.toList

/-- Python `s.startswith(p)`. -/
def strStartsWith (s p : String) : Bool :=
  prefixMatches p.toList s.toList

/-- ASCII lower-casing of one character, as Python `str.lower` acts on the
ASCII inputs this pipeline sees. -/
def lowerChar (c : Char) : Char :=
  if 65 ≤ c.toNat ∧ c.toNat ≤ 90 then Char.ofNat (c.toNat + 32) else c

/-- Python `s.lower()` (ASCII range). -/
def lowerStr (s : String) : String :=
  String.mk (s.toList.map lowerChar)

/-- Python `s.split("; ")` on character lists: cut at every occurrence of
the two-character separator, scanning left to right. -/
def splitSemi : List Char → List (List Char)
  | [] => [[]]
  | [c] => [[c]]
  | c₁ :: c₂ :: rest =>
    if c₁ = ';' ∧ c₂ = ' ' then [] :: splitSemi rest
    else
      match splitSemi (c₂ :: rest) with
      | [] => [[c₁]]
      | h :: t => (c₁ :: h) :: t

/-- Python `s.split("; ")` on strings. -/
def splitSemiStr (s : String) : List String :=
  (splitSemi s.toList).map String.mk

/-- A table schema: ordered column name / declared type pairs. -/
def Schema : Type := List (String × String)

/-- The `ARTICLES` schema dictionary from the source, in insertion order. -/
def ARTICLES : Schema :=
  [("Id", "TEXT PRIMARY KEY"), ("Source", "TEXT"), ("Published", "DATETIME"),
   ("Publication", "TEXT"), ("Authors", "TEXT"), ("Title", "TEXT"),
   ("Tags", "TEXT"), ("Reference", "TEXT")]

/-- The `SECTIONS` schema dictionary from the source, in insertion order. -/
def SECTIONS : Schema :=
  [("Id", "INTEGER PRIMARY KEY"), ("Article", "TEXT"), ("Text", "TEXT"),
   ("Tags", "TEXT")]

/-- Python truthiness of a `Value`, as used by `int(value) if value else 0`. -/
def truthy : Value → Bool
  | .null => false
  | .str s => !(s == "")
  | .int n => !(n == 0)
  | .date _ => true

/-- Python `int(value)`: identity on ints, numeric parse on strings,
raises (`none`) on anything else. -/
def toInt? : Value → Option Int
  | .int n => some n
  | .str s => s.toInt?
  | _ => none

/-- One row of the metadata.csv table, restricted to the fields the
pipeline reads. -/
structure Row where
  sha : String
  title : String
  publish_time : String
  source_x : String
  journal : String
  authors : String
  doi : String
  full_text_file : String
deriving DecidableEq, Repr, Inhabited

/-- External collaborators of the pipeline, abstracted as parameters:
`sha1` is `hashlib.sha1(...).hexdigest()`, `parse` is
`dateutil.parser.parse` (`none` = raised exception), `tok` is nltk
`sent_tokenize`, `fs` maps a file path to the parsed `body_text` block
texts of the JSON file there (`none` = missing/unreadable/malformed), and
`ok i` tells whether the `i`-th insert `db.execute` of the run succeeds
(`false` = raised exception, caught and logged by `Etl.insert`). -/
structure Env where
  sha1 : String → String
  parse : String → Option PDate
  tok : String → List String
  fs : String → Option (List String)
  ok : Nat → Bool

namespace Etl

/-- The boilerplate marker filtered out by `Etl.read`. -/
def marker : String := "COVID-19 resource centre remains active"

/-- The fixed keyword list of `Etl.getTags`. -/
def keywords : List String :=
  ["2019-ncov", "2019 novel coronavirus", "coronavirus 2019",
   "coronavirus disease 19", "covid-19", "covid 19", "ncov-2019",
   "sars-cov-2", "wuhan coronavirus", "wuhan pneumonia", "wuhan virus"]

/-- Does one text fragment contain any keyword, case-insensitively?
This is `any(x in text.lower() for x in keywords)` from `Etl.getTags`. -/
def hasKeyword (text : String) : Bool :=
  keywords.any (fun x => containsSubstr (lowerStr text) x)

/-- `Etl.getIds`: use the semicolon-delimited sha list when present,
otherwise fall back to the sha1 of the title, rejecting duplicates of
earlier generated ids.  Returns the resolved ids (or `none` for a
rejected duplicate) together with the updated generated-id set. -/
def getIds (env : Env) (row : Row) (ids : List String) :
    Option (List String) × List String :=
  let uids : Option (List String) :=
    if row.sha ≠ "" then some (splitSemiStr row.sha) else none
  match uids with
  | some (u :: us) => (some (u :: us), ids)
  | _ =>
    let uid := env.sha1 row.title
    if uid ∈ ids then (none, ids)
    else (some [uid], uid :: ids)

/-- Python `date.isdigit() and len(date) == 4`. -/
def isFourDigitYear (s : String) : Bool :=
  s.toList.all Char.isDigit && s.length == 4

/-- `Etl.getDate`: empty publish_time gives `none`; a bare four-digit year
is anchored to January 1 before parsing; a parse failure (exception) is
caught and gives `none`. -/
def getDate (env : Env) (row : Row) : Option PDate :=
  let date := row.publish_time
  if date ≠ "" then
    env.parse (if isFourDigitYear date then date ++ "-01-01" else date)
  else none

/-- `Etl.getTags`: scan the fragments in order, setting the tag whenever a
fragment contains a keyword. -/
def getTags (sections : List String) : Option String :=
  sections.foldl
    (fun tags text => if hasKeyword text then some "COVID-19" else tags)
    none

/-- `Etl.getReference`: resolve a doi link. -/
def getReference (row : Row) : Option String :=
  if row.doi ≠ "" then some ("https://doi.org/" ++ row.doi) else none

/-- The body-file path built in `Etl.read`; the subset segment appears
twice by design. -/
def articlePath (directory subset uid : String) : String :=
  directory ++ "/" ++ subset ++ "/" ++ subset ++ "/" ++ uid ++ ".json"

/-- The inner loop body of `Etl.read`: skip a block holding the
boilerplate marker, otherwise append its sentence fragments. -/
def readBlockStep (env : Env) (secs : List String) (text : String) :
    List String :=
  if containsSubstr text marker then secs else secs ++ env.tok text

/-- The outer loop body of `Etl.read`: open one id's body file and fold
its blocks; a missing or malformed file (a caught exception) contributes
nothing. -/
def readFileStep (env : Env) (directory subset : String)
    (sections : List String) (uid : String) : List String :=
  match env.fs (articlePath directory subset uid) with
  | some blocks => blocks.foldl (readBlockStep env) sections
  | none => sections

/-- `Etl.read`: for each sha id, open the body file, skip blocks holding
the boilerplate marker, and split the remaining blocks into sentences,
accumulating in document order. -/
def read (env : Env) (directory : String) (row : Row) : List String :=
  let uids : Option (List String) :=
    if row.sha ≠ "" then some (splitSemiStr row.sha) else none
  let subset := row.full_text_file
  match uids with
  | some (u :: us) =>
    if subset ≠ "" then
      (u :: us).foldl (readFileStep env directory subset) []
    else []
  | _ => []

/-- `Etl.values`: coerce a positional row by declared column type.
INTEGER columns go through `int(value) if value else 0` (a parse failure
raises, giving `none`); BOOLEAN columns compare against the literal
`"TRUE"`; everything else passes through.  A row shorter than the schema
raises (`none`). -/
def values : Schema → List Value → Option (List Value)
  | [], _ => some []
  | (_, ctype) :: rest, v :: vs =>
    if strStartsWith ctype "INTEGER" then
      match (if truthy v then toInt? v else some 0) with
      | some n => (values rest vs).map (fun r => Value.int n :: r)
      | none => none
    else if ctype == "BOOLEAN" then
      (values rest vs).map
        (fun r => Value.int (if v == Value.str "TRUE" then 1 else 0) :: r)
    else
      (values rest vs).map (fun r => v :: r)
  | _ :: _, [] => none

/-- The output database: the two tables, as lists of coerced rows. -/
structure DB where
  articles : List (List Value)
  sections : List (List Value)
deriving DecidableEq, Repr, Inhabited

/-- The mutable state of `Etl.run`: the database, the article and section
counters, the generated-id set, and how many insert `db.execute` attempts
have been made (indexing into `Env.ok`). -/
structure St where
  db : DB
  aindex : Nat
  sindex : Nat
  ids : List String
  attempt : Nat
deriving DecidableEq, Repr, Inhabited

/-- `Etl.insert`: coerce the row and execute the insert; an exception from
either step is caught, leaving the table unchanged. -/
def insert (env : Env) (table : Schema) (rows : List (List Value))
    (attempt : Nat) (row : List Value) : List (List Value) × Nat :=
  match values table row with
  | none => (rows, attempt)
  | some vs =>
    if env.ok attempt then (rows ++ [vs], attempt + 1) else (rows, attempt + 1)

/-- Lift an optional string into a row `Value`. -/
def optStr : Option String → Value
  | some s => .str s
  | none => .null

/-- Lift an optional date into a row `Value`. -/
def optDate : Option PDate → Value
  | some d => .date d
  | none => .null

/-- The section-insert loop at the end of `Etl.run`: one row per text
fragment, consuming one section id per fragment whether or not the insert
succeeds. -/
def insertSections (env : Env) (uid : String) (tags : Option String) :
    List String → List (List Value) → Nat → Nat →
    List (List Value) × Nat × Nat
  | [], secs, sidx, att => (secs, sidx, att)
  | text :: rest, secs, sidx, att =>
    let p := insert env SECTIONS secs att
      [Value.int sidx, Value.str uid, Value.str text, optStr tags]
    insertSections env uid tags rest p.1 (sidx + 1) p.2

/-- One iteration of the metadata loop in `Etl.run`: resolve ids (skipping
the row when the resolver signals a duplicate), read and tag the sections,
insert the article row and then one section row per fragment. -/
def processRow (env : Env) (directory : String) (st : St) (row : Row) : St :=
  let g := getIds env row st.ids
  match g.1 with
  | some (u :: _) =>
    let date := getDate env row
    let sections := row.title :: read env directory row
    let tags := getTags sections
    let article : List Value :=
      [Value.str u, Value.str row.source_x, optDate date,
       Value.str row.journal, Value.str row.authors, Value.str row.title,
       optStr tags, optStr (getReference row)]
    let a := insert env ARTICLES st.db.articles st.attempt article
    let s := insertSections env u tags sections st.db.sections st.sindex a.2
    { db := { articles := a.1, sections := s.1 },
      aindex := st.aindex + 1, sindex := s.2.1, ids := g.2, attempt := s.2.2 }
  | _ => { st with ids := g.2 }

/-- The state `Etl.run` starts from: empty tables, zero counters, empty
generated-id set. -/
def initSt : St :=
  { db := { articles := [], sections := [] },
    aindex := 0, sindex := 0, ids := [], attempt := 0 }

/-- The metadata loop of `Etl.run` from an arbitrary starting state. -/
def runRows (env : Env) (directory : String) (st : St) (rows : List Row) : St :=
  rows.foldl (processRow env directory) st

/-- `Etl.run`: process every metadata row in file order from the initial
state. -/
def run (env : Env) (directory : String) (rows : List Row) : St :=
  runRows env directory initSt rows

/-- The `Id` column of every section row in a sections table, in insert
order. -/
def idsOf (secs : List (List Value)) : List Int :=
  secs.filterMap
    (fun r => match r with | Value.int n :: _ => some n | _ => none)

/-- The `Id` column of every section row present in the output, in insert
order. -/
def sectionIds (st : St) : List Int :=
  idsOf st.db.sections

/-- The integer sequence `s, s+1, ..., s+n-1`. -/
def idRange (s n : Nat) : List Int :=
  (List.range n).map (fun i => Int.ofNat (s + i))

/-- The attempt-index sequence `s, s+1, ..., s+n-1`. -/
def attRange (s n : Nat) : List Nat :=
  (List.range n).map (fun i => s + i)

/-- The insert `db.execute` attempt indices that processing one metadata
row spends on section rows: a skipped row spends none; a kept row first
spends one attempt on its article insert (the row coercion for the
articles schema never raises) and then one per text fragment. -/
def rowSectionAttempts (env : Env) (dir : String) (st : St) (row : Row) :
    List Nat :=
  match (getIds env row st.ids).1 with
  | some (_ :: _) =>
    attRange (st.attempt + 1) (row.title :: read env dir row).length
  | _ => []

/-- All insert `db.execute` attempt indices spent on section rows across
a run, in order. -/
def runSectionAttempts (env : Env) (dir : String) (st : St) :
    List Row → List Nat
  | [] => []
  | r :: rs =>
    rowSectionAttempts env dir st r
      ++ runSectionAttempts env dir (processRow env dir st r) rs

/-- A list is the contiguous integer sequence `k, k+1, ...` of its length:
strictly increasing, no gaps, no repeats, starting at `k`. -/
def contiguousFrom (k : Int) (l : List Int) : Prop :=
  l = (List.range l.length).map (fun i => k + Int.ofNat i)

instance (k : Int) (l : List Int) : Decidable (contiguousFrom k l) := by
  unfold contiguousFrom
  infer_instance

/-- Per-column coercion rule as §4.5 of the spec states it: integer
columns coerce via numeric parse with empty/null mapped to 0, boolean
columns map the literal `"TRUE"` to true (1) and everything else to false
(0), and values for all other column types pass through unchanged.  The
refinement theorem for `values` compares the source coercion against this
rule. -/
def coerceSpec (ctype : String) (v : Value) : Option Value :=
  if strStartsWith ctype "INTEGER" then
    if truthy v then (toInt? v).map Value.int else some (Value.int 0)
  else if ctype == "BOOLEAN" then
    some (Value.int (if v == Value.str "TRUE" then 1 else 0))
  else some v

/-- The fragments one body file contributes in `Etl.read`: nothing when
the file is missing or malformed, otherwise the sentence fragments of the
blocks that do not hold the boilerplate marker, in document order. -/
def fileSections (env : Env) (directory subset uid : String) : List String :=
  match env.fs (articlePath directory subset uid) with
  | some blocks =>
    (blocks.filter (fun text => !containsSubstr text marker)).flatMap env.tok
  | none => []

/-- Witness environment: one body file at `d/S/S/abc.json` holding the
single block `"Hello world."`; the tokenizer returns whole blocks as
single sentences; every insert succeeds. -/
def cEnv1 : Env :=
  { sha1 := fun _ => "hh", parse := fun _ => none, tok := fun s => [s],
    fs := fun p =>
      if p = articlePath "d" "S" "abc" then some ["Hello world."] else none,
    ok := fun _ => true }

/-- Witness metadata row with explicit id `abc`, title `T`, subset `S`. -/
def cRow1 : Row := ⟨"abc", "T", "", "", "", "", "", "S"⟩

/-- Counterexample environment: the body file holds two blocks, and the
third insert `db.execute` of the run (the second section row) fails. -/
def cEnvFail : Env :=
  { sha1 := fun _ => "hh", parse := fun _ => none, tok := fun s => [s],
    fs := fun p =>
      if p = articlePath "d" "S" "abc" then some ["A.", "B."] else none,
    ok := fun i => !(i == 2) }

/-- Witness environment in which the article insert (attempt index 0 of
the run) fails while every section-row insert succeeds. -/
def cEnvArtFail : Env :=
  { sha1 := fun _ => "hh", parse := fun _ => none, tok := fun s => [s],
    fs := fun p =>
      if p = articlePath "d" "S" "abc" then some ["Hello world."] else none,
    ok := fun i => !(i == 0) }

/-- Witness environment with a deterministic title hash and no body
files. -/
def cEnv3 : Env :=
  { sha1 := fun t => "H" ++ t, parse := fun _ => none, tok := fun s => [s],
    fs := fun _ => none, ok := fun _ => true }

/-- Witness row lacking an explicit id (empty sha). -/
def cRowA : Row := ⟨"", "T", "", "", "", "", "", ""⟩

/-- Witness row with explicit id `x` and no subset. -/
def cRowX : Row := ⟨"x", "T2", "", "", "", "", "", ""⟩

/-- Witness environment whose date parser accepts exactly the ISO string
`2020-01-01`. -/
def cEnv5 : Env :=
  { sha1 := fun _ => "", tok := fun s => [s], fs := fun _ => none,
    parse := fun s => if s = "2020-01-01" then some ⟨2020, 1, 1⟩ else none,
    ok := fun _ => true }

/-- Witness row whose publish_time is a bare four-digit year. -/
def cRowD4 : Row := ⟨"a", "t", "2020", "", "", "", "", ""⟩

/-- Witness row whose publish_time parses to nothing. -/
def cRowDF : Row := ⟨"a", "t", "not-a-date", "", "", "", "", ""⟩

/-- Witness environment for the boilerplate filter: the body file holds a
marker block followed by a content block. -/
def cEnv7 : Env :=
  { sha1 := fun _ => "", parse := fun _ => none, tok := fun s => [s],
    fs := fun p =>
      if p = articlePath "d" "S" "abc" then
        some ["The COVID-19 resource centre remains active notice.", "Good."]
      else none,
    ok := fun _ => true }

/-- Witness schema exercising all three declared-type coercion rules. -/
def cTable : Schema := [("A", "INTEGER"), ("B", "BOOLEAN"), ("C", "TEXT")]

/-- Witness positional row for `cTable`. -/
def cRowVals : List Value := [.int 5, .str "TRUE", .str "x"]

/-- The coerced output row for `cTable` and `cRowVals`. -/
def cResVals : List Value := [.int 5, .int 1, .str "x"]

/-- The section row produced for `cRowX` from the empty initial state. -/
def cSec9 : List Value := [.int 0, .str "x", .str "T2", .null]

/-- The article row produced for `cRowX` from the empty initial state. -/
def cArt9 : List Value :=
  [.str "x", .str "", .null, .str "", .str "", .str "T2", .null, .null]

/-! Helper lemmas about the embedded operations. -/

theorem splitSemi_ne_nil : ∀ l : List Char, splitSemi l ≠ [] := by
  intro l
  match l with
  | [] => simp [splitSemi]
  | [c] => simp [splitSemi]
  | c₁ :: c₂ :: rest =>
    simp only [splitSemi]
    split
    · simp
    · split <;> simp

theorem splitSemiStr_ne_nil (s : String) : splitSemiStr s ≠ [] := by
  unfold splitSemiStr
  intro hc
  exact splitSemi_ne_nil s.toList (by simpa using hc)

theorem getIds_explicit (env : Env) (row : Row) (ids : List String)
    (h : row.sha ≠ "") :
    getIds env row ids = (some (splitSemiStr row.sha), ids) := by
  unfold getIds
  rcases hsp : splitSemiStr row.sha with _ | ⟨u, us⟩
  · exact absurd hsp (splitSemiStr_ne_nil _)
  · simp [h, hsp]

theorem getIds_snd (env : Env) (row : Row) (ids : List String) :
    (getIds env row ids).2 = ids
    ∨ (getIds env row ids).2 = env.sha1 row.title :: ids := by
  unfold getIds
  by_cases h : row.sha ≠ ""
  · rcases hsp : splitSemiStr row.sha with _ | ⟨u, us⟩
    · exact absurd hsp (splitSemiStr_ne_nil _)
    · simp [h, hsp]
  · by_cases hm : env.sha1 row.title ∈ ids <;> simp [h, hm]

theorem getIds_fallback_mem (env : Env) (row : Row) (ids : List String)
    (h : row.sha = "") :
    env.sha1 row.title ∈ (getIds env row ids).2 := by
  unfold getIds
  by_cases hm : env.sha1 row.title ∈ ids <;> simp [h, hm]

theorem processRow_ids (env : Env) (dir : String) (st : St) (row : Row) :
    (processRow env dir st row).ids = (getIds env row st.ids).2 := by
  unfold processRow
  rcases hg : (getIds env row st.ids).1 with _ | l
  · simp [hg]
  · rcases l with _ | ⟨u, us⟩ <;> simp [hg]

theorem processRow_ids_mono (env : Env) (dir : String) (st : St) (row : Row) :
    st.ids ⊆ (processRow env dir st row).ids := by
  rw [processRow_ids]
  rcases getIds_snd env row st.ids with h | h <;> rw [h]
  · exact fun a ha => ha
  · exact fun a ha => List.mem_cons_of_mem _ ha

theorem runRows_ids_mono (env : Env) (dir : String) (st : St)
    (rows : List Row) : st.ids ⊆ (runRows env dir st rows).ids := by
  induction rows generalizing st with
  | nil => exact fun a ha => ha
  | cons r rs ih =>
    intro a ha
    exact ih (processRow env dir st r) (processRow_ids_mono env dir st r ha)

theorem processRow_dup_skip (env : Env) (dir : String) (st : St) (row : Row)
    (h : row.sha = "") (hm : env.sha1 row.title ∈ st.ids) :
    processRow env dir st row = st := by
  unfold processRow getIds
  simp [h, hm]

theorem fallback_mem_after (env : Env) (dir : String) (st : St) (row : Row)
    (h : row.sha = "") :
    env.sha1 row.title ∈ (processRow env dir st row).ids := by
  rw [processRow_ids]
  exact getIds_fallback_mem env row st.ids h

theorem values_articles (v₁ v₂ v₃ v₄ v₅ v₆ v₇ v₈ : Value) :
    values ARTICLES [v₁, v₂, v₃, v₄, v₅, v₆, v₇, v₈] =
      some [v₁, v₂, v₃, v₄, v₅, v₆, v₇, v₈] := by
  have h₁ : strStartsWith "TEXT PRIMARY KEY" "INTEGER" = false := by decide
  have h₂ : strStartsWith "TEXT" "INTEGER" = false := by decide
  have h₃ : strStartsWith "DATETIME" "INTEGER" = false := by decide
  have h₄ : ("TEXT PRIMARY KEY" == "BOOLEAN") = false := by decide
  have h₅ : ("TEXT" == "BOOLEAN") = false := by decide
  have h₆ : ("DATETIME" == "BOOLEAN") = false := by decide
  simp [values, ARTICLES, h₁, h₂, h₃, h₄, h₅, h₆]

theorem values_sections (n : Int) (b c d : Value) :
    values SECTIONS [Value.int n, b, c, d] = some [Value.int n, b, c, d] := by
  have h₁ : strStartsWith "INTEGER PRIMARY KEY" "INTEGER" = true := by decide
  have h₂ : strStartsWith "TEXT" "INTEGER" = false := by decide
  have h₃ : ("TEXT" == "BOOLEAN") = false := by decide
  by_cases hn : n = 0
  · subst hn
    simp [values, SECTIONS, h₁, h₂, h₃, truthy, toInt?]
  · simp [values, SECTIONS, h₁, h₂, h₃, truthy, toInt?, hn]

theorem getTags_foldl (acc : Option String) (l : List String) :
    l.foldl (fun tags text => if hasKeyword text then some "COVID-19" else tags)
        acc
      = if l.any hasKeyword then some "COVID-19" else acc := by
  induction l generalizing acc with
  | nil => simp
  | cons t ts ih =>
    simp only [List.foldl_cons, List.any_cons, ih]
    by_cases h : hasKeyword t = true
    · simp [h]
    · simp [h]

theorem getTags_eq (sections : List String) :
    getTags sections
      = if sections.any hasKeyword then some "COVID-19" else none := by
  unfold getTags
  exact getTags_foldl none sections

theorem read_blocks_foldl (env : Env) (blocks : List String)
    (acc : List String) :
    blocks.foldl (readBlockStep env) acc
      = acc
        ++ (blocks.filter (fun text => !containsSubstr text marker)).flatMap
            env.tok := by
  induction blocks generalizing acc with
  | nil => simp
  | cons b bs ih =>
    simp only [List.foldl_cons, List.filter_cons, readBlockStep]
    by_cases h : containsSubstr b marker = true
    · simp [h, ih]
    · simp [h, ih]

theorem readFileStep_nil (env : Env) (dir subset u : String) :
    readFileStep env dir subset [] u = fileSections env dir subset u := by
  unfold readFileStep fileSections
  rcases env.fs (articlePath dir subset u) with _ | blocks
  · rfl
  · simp [read_blocks_foldl]

theorem read_uids_foldl (env : Env) (dir subset : String)
    (uids : List String) (acc : List String) :
    uids.foldl (readFileStep env dir subset) acc
      = acc ++ uids.flatMap (fileSections env dir subset) := by
  induction uids generalizing acc with
  | nil => simp
  | cons u us ih =>
    rw [List.foldl_cons, ih]
    rcases hfs : env.fs (articlePath dir subset u) with _ | blocks
    · simp [readFileStep, hfs, fileSections]
    · simp [readFileStep, hfs, fileSections, read_blocks_foldl]

theorem insert_sections_cases (env : Env) (secs : List (List Value))
    (att : Nat) (n : Int) (b c d : Value) :
    insert env SECTIONS secs att [Value.int n, b, c, d]
        = (secs ++ [[Value.int n, b, c, d]], att + 1)
    ∨ insert env SECTIONS secs att [Value.int n, b, c, d]
        = (secs, att + 1) := by
  unfold insert
  rw [values_sections]
  by_cases h : env.ok att <;> simp [h]

theorem insertSections_mem (env : Env) (uid : String) (tags : Option String) :
    ∀ (texts : List String) (secs : List (List Value)) (sidx att : Nat)
      (s : List Value),
      s ∈ (insertSections env uid tags texts secs sidx att).1 →
      s ∈ secs
      ∨ ∃ i text, s = [Value.int i, Value.str uid, Value.str text, optStr tags]
  | [], secs, sidx, att, s => by
    intro hmem
    exact Or.inl hmem
  | text :: rest, secs, sidx, att, s => by
    intro hmem
    simp only [insertSections] at hmem
    have hrec := insertSections_mem env uid tags rest _ (sidx + 1) _ s hmem
    rcases hrec with hin | hex
    · rcases insert_sections_cases env secs att sidx (Value.str uid)
          (Value.str text) (optStr tags) with hc | hc
      · rw [hc] at hin
        rcases List.mem_append.mp hin with h' | h'
        · exact Or.inl h'
        · refine Or.inr ⟨sidx, text, ?_⟩
          simpa using h'
      · rw [hc] at hin
        exact Or.inl hin
    · exact Or.inr hex

theorem insert_sections_ok (env : Env) (secs : List (List Value)) (att : Nat)
    (n : Int) (b c d : Value) (h : env.ok att = true) :
    insert env SECTIONS secs att [Value.int n, b, c, d]
      = (secs ++ [[Value.int n, b, c, d]], att + 1) := by
  unfold insert
  rw [values_sections]
  simp [h]

theorem idRange_zero (s : Nat) : idRange s 0 = [] := rfl

theorem idRange_succ (s n : Nat) :
    idRange s (n + 1) = Int.ofNat s :: idRange (s + 1) n := by
  simp only [idRange, List.range_succ_eq_map, List.map_cons, List.map_map]
  refine congrArg₂ _ (by simp) ?_
  refine List.map_congr_left ?_
  intro i _
  simp only [Function.comp_apply]
  congr 1
  omega

theorem idRange_append (s m n : Nat) :
    idRange s m ++ idRange (s + m) n = idRange s (m + n) := by
  induction m generalizing s with
  | zero => simp [idRange_zero]
  | succ m ih =>
    have h2 : m + 1 + n = (m + n) + 1 := by omega
    rw [h2, idRange_succ, idRange_succ]
    have h1 : s + (m + 1) = (s + 1) + m := by omega
    rw [h1, List.cons_append, ih (s + 1)]

theorem attRange_zero (s : Nat) : attRange s 0 = [] := rfl

theorem attRange_succ (s n : Nat) :
    attRange s (n + 1) = s :: attRange (s + 1) n := by
  simp only [attRange, List.range_succ_eq_map, List.map_cons, List.map_map]
  refine congrArg₂ _ (by simp) ?_
  refine List.map_congr_left ?_
  intro i _
  simp only [Function.comp_apply]
  omega

theorem idsOf_append (a b : List (List Value)) :
    idsOf (a ++ b) = idsOf a ++ idsOf b := by
  simp [idsOf]

theorem insert_articles_attempt (env : Env) (rows : List (List Value))
    (att : Nat) (v₁ v₂ v₃ v₄ v₅ v₆ v₇ v₈ : Value) :
    (insert env ARTICLES rows att [v₁, v₂, v₃, v₄, v₅, v₆, v₇, v₈]).2
      = att + 1 := by
  unfold insert
  rw [values_articles]
  by_cases h : env.ok att = true <;> simp [h]

theorem insertSections_ids_ok (env : Env) (uid : String)
    (tags : Option String) :
    ∀ (texts : List String) (secs : List (List Value)) (sidx att : Nat),
      (∀ i ∈ attRange att texts.length, env.ok i = true) →
      idsOf (insertSections env uid tags texts secs sidx att).1
          = idsOf secs ++ idRange sidx texts.length
      ∧ (insertSections env uid tags texts secs sidx att).2.1
          = sidx + texts.length
  | [], secs, sidx, att, _ => by
    simp [insertSections, idRange_zero]
  | text :: rest, secs, sidx, att, hall => by
    have hk : env.ok att = true := by
      refine hall att ?_
      simp only [List.length_cons, attRange_succ]
      exact List.mem_cons_self att _
    simp only [insertSections,
      insert_sections_ok env secs att sidx (Value.str uid) (Value.str text)
        (optStr tags) hk]
    have ih := insertSections_ids_ok env uid tags rest
      (secs ++ [[Value.int sidx, Value.str uid, Value.str text, optStr tags]])
      (sidx + 1) (att + 1)
      (by
        intro i hi
        refine hall i ?_
        simp only [List.length_cons, attRange_succ]
        exact List.mem_cons_of_mem att hi)
    rcases ih with ⟨ih1, ih2⟩
    constructor
    · rw [ih1, idsOf_append]
      have hone : idsOf [[Value.int sidx, Value.str uid, Value.str text,
          optStr tags]] = [Int.ofNat sidx] := by simp [idsOf]
      rw [hone, List.append_assoc]
      have : Int.ofNat sidx :: idRange (sidx + 1) rest.length
          = idRange sidx (rest.length + 1) := (idRange_succ _ _).symm
      simp only [List.singleton_append, this, List.length_cons]
    · rw [ih2]
      simp only [List.length_cons]
      omega

theorem values_cons_eq (nm ctype : String) (rest : Schema) (v : Value)
    (vs : List Value) :
    values ((nm, ctype) :: rest) (v :: vs)
      = (coerceSpec ctype v).bind
          (fun c => (values rest vs).map (fun r => c :: r)) := by
  by_cases hint : strStartsWith ctype "INTEGER" = true
  · by_cases ht : truthy v = true
    · rcases hti : toInt? v with _ | n <;>
        simp [values, coerceSpec, hint, ht, hti]
    · simp [values, coerceSpec, hint, ht]
  · by_cases hb : ctype = "BOOLEAN"
    · have hbi : strStartsWith "BOOLEAN" "INTEGER" = false := by decide
      simp [values, coerceSpec, hint, hb, hbi]
    · simp [values, coerceSpec, hint, hb]

/-- C8: for every schema descriptor and positional row accepted by the
RowWriter's coercion, each output value is the input value mapped by its
column's declared type, exactly as `coerceSpec` states the rule: INTEGER
columns coerce via numeric parse with empty/null mapped to 0, BOOLEAN
columns map the literal "TRUE" to true and everything else to false, and
all other column types pass the value through unchanged. -/
theorem values_coerces_by_type (table : Schema) (row res : List Value)
    (i : Nat) (col : String × String) (v : Value)
    (h : values table row = some res) (hc : table.get? i = some col)
    (hv : row.get? i = some v) :
    res.get? i = coerceSpec col.2 v := by
  induction table generalizing row res i with
  | nil =>
    rw [List.get?_nil] at hc
    exact Option.noConfusion hc
  | cons c rest ih =>
    rcases row with _ | ⟨v₀, vs⟩
    · simp at hv
    · rcases c with ⟨nm, ctype⟩
      rw [values_cons_eq] at h
      rcases hco : coerceSpec ctype v₀ with _ | c₀
      · rw [hco] at h
        simp at h
      · rw [hco] at h
        have h' : (values rest vs).map (fun r => c₀ :: r) = some res := h
        rcases hrest : values rest vs with _ | res'
        · rw [hrest] at h'
          simp at h'
        · rw [hrest] at h'
          have hres : res = c₀ :: res' := by
            have : some (c₀ :: res') = some res := h'
            exact (Option.some_inj.mp this).symm
          subst hres
          rcases i with _ | i
          · simp only [List.get?_cons_zero, Option.some_inj] at hc hv
            subst hc
            subst hv
            simp only [List.get?_cons_zero]
            exact hco.symm
          · simp only [List.get?_cons_succ] at hc hv ⊢
            exact ih vs res' i hrest hc hv

theorem processRow_sectionIds (env : Env) (dir : String) (st : St)
    (row : Row)
    (hrow : ∀ i ∈ rowSectionAttempts env dir st row, env.ok i = true)
    (h : idsOf st.db.sections = idRange 0 st.sindex) :
    idsOf (processRow env dir st row).db.sections
      = idRange 0 (processRow env dir st row).sindex := by
  unfold processRow
  unfold rowSectionAttempts at hrow
  rcases hg : (getIds env row st.ids).1 with _ | l
  · simp [hg, h]
  · rcases l with _ | ⟨u, us⟩
    · simp [hg, h]
    · simp only [hg]
      simp only [hg] at hrow
      have hatt := insert_articles_attempt env st.db.articles st.attempt
        (Value.str u) (Value.str row.source_x) (optDate (getDate env row))
        (Value.str row.journal) (Value.str row.authors)
        (Value.str row.title)
        (optStr (getTags (row.title :: read env dir row)))
        (optStr (getReference row))
      obtain ⟨h1, h2⟩ := insertSections_ids_ok env u
        (getTags (row.title :: read env dir row))
        (row.title :: read env dir row) st.db.sections st.sindex
        (insert env ARTICLES st.db.articles st.attempt
          [Value.str u, Value.str row.source_x, optDate (getDate env row),
           Value.str row.journal, Value.str row.authors, Value.str row.title,
           optStr (getTags (row.title :: read env dir row)),
           optStr (getReference row)]).2
        (by
          rw [hatt]
          exact hrow)
      simp only [h1, h2, h]
      have := idRange_append 0 st.sindex (row.title :: read env dir row).length
      simpa using this

theorem runRows_sectionIds (env : Env) (dir : String) (rows : List Row)
    (st : St)
    (hok : ∀ i ∈ runSectionAttempts env dir st rows, env.ok i = true)
    (h : idsOf st.db.sections = idRange 0 st.sindex) :
    idsOf (runRows env dir st rows).db.sections
      = idRange 0 (runRows env dir st rows).sindex := by
  induction rows generalizing st with
  | nil => exact h
  | cons r rs ih =>
    refine ih (processRow env dir st r) ?_
      (processRow_sectionIds env dir st r ?_ h)
    · intro i hi
      refine hok i ?_
      unfold runSectionAttempts
      exact List.mem_append.mpr (Or.inr hi)
    · intro i hi
      refine hok i ?_
      unfold runSectionAttempts
      exact List.mem_append.mpr (Or.inl hi)

/-! Claim theorems. -/

/-- C2 (amended): in a run in which every section-row insert `db.execute`
succeeds — article inserts may fail — the Section.Id values collected
across the entire run form a contiguous, strictly increasing integer
sequence starting at the writer's initial value 0, with no gaps and no
repeats, independent of article boundaries. -/
theorem run_sectionIds_contiguous (env : Env) (dir : String)
    (rows : List Row)
    (hok : ∀ i ∈ runSectionAttempts env dir initSt rows, env.ok i = true) :
    contiguousFrom 0 (sectionIds (run env dir rows)) := by
  have hbase : idsOf initSt.db.sections = idRange 0 initSt.sindex := rfl
  have hfin := runRows_sectionIds env dir rows initSt hok hbase
  unfold run at hfin ⊢
  unfold contiguousFrom sectionIds
  rw [hfin]
  have hlen : (idRange 0 (runRows env dir initSt rows).sindex).length
      = (runRows env dir initSt rows).sindex := by simp [idRange]
  rw [hlen]
  simp only [idRange]
  refine List.map_congr_left ?_
  intro i _
  simp

/-- C2 witness: a one-row metadata table and a two-fragment document in
the environment whose article insert (attempt 0) fails while both
section-row inserts succeed: the collected section ids are still
contiguous from 0. -/
theorem run_sectionIds_contiguous_witness :
    contiguousFrom 0 (sectionIds (run cEnvArtFail "d" [cRow1])) :=
  run_sectionIds_contiguous cEnvArtFail "d" [cRow1] (by decide)

/-- C2 counterexample: when the insert of the second section row fails
(attempt index 2 of the run), the Section.Id values present in the output
are 0 and 2 — they do not form a contiguous sequence starting at 0, so the
claim is false for runs in which some section-row inserts fail. -/
theorem sectionIds_gap_when_insert_fails :
    ¬ contiguousFrom 0 (sectionIds (run cEnvFail "d" [cRow1])) := by
  decide

/-- C3: when two metadata rows both lack an explicit identifier and share
a title, processing the later row after the earlier one leaves the whole
run state unchanged — no Article row and no Section rows are produced for
it; and the resolver never rejects a row with a non-empty explicit
identifier field, whatever the generated-id set holds. -/
theorem dup_fallback_skipped (env : Env) (dir : String) (st₀ st₁ : St)
    (pre mid : List Row) (r₁ r₂ r₃ : Row)
    (h₁ : r₁.sha = "") (h₂ : r₂.sha = "") (ht : r₁.title = r₂.title)
    (h₃ : r₃.sha ≠ "") :
    processRow env dir (runRows env dir st₀ (pre ++ r₁ :: mid)) r₂
      = runRows env dir st₀ (pre ++ r₁ :: mid)
    ∧ (getIds env r₃ st₁.ids).1 = some (splitSemiStr r₃.sha) := by
  constructor
  · have hsplit : runRows env dir st₀ (pre ++ r₁ :: mid)
        = runRows env dir (processRow env dir (runRows env dir st₀ pre) r₁)
            mid := by
      simp [runRows, List.foldl_append]
    have hmem : env.sha1 r₂.title
        ∈ (runRows env dir st₀ (pre ++ r₁ :: mid)).ids := by
      rw [hsplit, ← ht]
      exact runRows_ids_mono env dir _ mid
        (fallback_mem_after env dir _ r₁ h₁)
    exact processRow_dup_skip env dir _ r₂ h₂ hmem
  · rw [getIds_explicit env r₃ st₁.ids h₃]

/-- C3 witness: two sha-less rows with the same title `T`, the second
processed directly after the first: the second changes nothing, and a row
with explicit sha `x` is resolved to its split sha list. -/
theorem dup_fallback_skipped_witness :
    (cRowA.sha = "") ∧ (cRowA.title = cRowA.title)
    ∧ (cRowX.sha ≠ "")
    ∧ (processRow cEnv3 "d" (runRows cEnv3 "d" initSt ([] ++ cRowA :: []))
          cRowA
        = runRows cEnv3 "d" initSt ([] ++ cRowA :: [])
      ∧ (getIds cEnv3 cRowX initSt.ids).1 = some (splitSemiStr cRowX.sha)) :=
  ⟨rfl, rfl, by decide,
    dup_fallback_skipped cEnv3 "d" initSt initSt [] [] cRowA cRowA cRowX
      rfl rfl rfl (by decide)⟩

/-- C4: the Tagger returns the label COVID-19 exactly when some fragment
contains one of the fixed keyword substrings case-insensitively, and
returns null otherwise; in particular a flu fragment yields null and a
COVID-19 fragment yields the label. -/
theorem getTags_iff (sections : List String) :
    (getTags sections = some "COVID-19"
      ↔ ∃ text, text ∈ sections
          ∧ ∃ x, x ∈ keywords ∧ containsSubstr (lowerStr text) x = true)
    ∧ (getTags sections = some "COVID-19" ∨ getTags sections = none)
    ∧ getTags ["Study of flu"] = none
    ∧ getTags ["COVID-19 outbreak report"] = some "COVID-19" := by
  refine ⟨?_, ?_, by decide, by decide⟩
  · constructor
    · intro hg
      rw [getTags_eq] at hg
      by_cases h : sections.any hasKeyword = true
      · rcases List.any_eq_true.mp h with ⟨t, ht, hk⟩
        rw [hasKeyword] at hk
        rcases List.any_eq_true.mp hk with ⟨x, hx, hcx⟩
        exact ⟨t, ht, x, hx, hcx⟩
      · simp [h] at hg
    · rintro ⟨t, ht, x, hx, hcx⟩
      rw [getTags_eq]
      have hk : hasKeyword t = true := by
        rw [hasKeyword]
        exact List.any_eq_true.mpr ⟨x, hx, hcx⟩
      have hany : sections.any hasKeyword = true :=
        List.any_eq_true.mpr ⟨t, ht, hk⟩
      simp [hany]
  · rw [getTags_eq]
    by_cases h : sections.any hasKeyword = true <;> simp [h]

/-- C5: the date parser yields null on an empty publish_time; a
four-digit publish_time is anchored to January 1 of that year before
parsing, so "2020" yields January 1, 2020 whenever the permissive parser
resolves "2020-01-01" to that date; and a parse failure yields null
without escaping the DateParser boundary. -/
theorem getDate_spec (env : Env) (r0 r4 rf : Row) (d : PDate)
    (h0 : r0.publish_time = "")
    (h4 : isFourDigitYear r4.publish_time = true)
    (h4ne : r4.publish_time ≠ "")
    (hjan : env.parse "2020-01-01" = some d)
    (hfne : rf.publish_time ≠ "")
    (hf4 : isFourDigitYear rf.publish_time = false)
    (hfail : env.parse rf.publish_time = none) :
    getDate env r0 = none
    ∧ getDate env r4 = env.parse (r4.publish_time ++ "-01-01")
    ∧ getDate env { r0 with publish_time := "2020" } = some d
    ∧ getDate env rf = none := by
  refine ⟨?_, ?_, ?_, ?_⟩
  · simp [getDate, h0]
  · simp [getDate, h4ne, h4]
  · have h2020 : isFourDigitYear "2020" = true := by decide
    have hne : ("2020" : String) ≠ "" := by decide
    simp [getDate, hne, h2020, hjan]
  · simp [getDate, hfne, hf4, hfail]

/-- C5 witness: a parser resolving exactly "2020-01-01": the empty
publish_time yields null, "2020" is anchored and yields January 1, 2020,
and "not-a-date" yields null. -/
theorem getDate_spec_witness :
    (cRowA.publish_time = "")
    ∧ (isFourDigitYear cRowD4.publish_time = true)
    ∧ (cRowD4.publish_time ≠ "")
    ∧ (cEnv5.parse "2020-01-01" = some ⟨2020, 1, 1⟩)
    ∧ (cRowDF.publish_time ≠ "")
    ∧ (isFourDigitYear cRowDF.publish_time = false)
    ∧ (cEnv5.parse cRowDF.publish_time = none)
    ∧ (getDate cEnv5 cRowA = none
      ∧ getDate cEnv5 cRowD4 = cEnv5.parse (cRowD4.publish_time ++ "-01-01")
      ∧ getDate cEnv5 { cRowA with publish_time := "2020" }
          = some ⟨2020, 1, 1⟩
      ∧ getDate cEnv5 cRowDF = none) :=
  ⟨rfl, by decide, by decide, by decide, by decide, by decide, by decide,
    getDate_spec cEnv5 cRowA cRowD4 cRowDF ⟨2020, 1, 1⟩ rfl (by decide)
      (by decide) (by decide) (by decide) (by decide) (by decide)⟩

/-- C7: for a row with a non-empty sha list and subset label, the
sections read are exactly, per sha id in order, the sentence fragments of
the body-file blocks that do not contain the boilerplate marker, in
document order — a block holding the marker contributes nothing while its
siblings are still split and included. -/
theorem read_filters_marker (env : Env) (dir : String) (row : Row)
    (h1 : row.sha ≠ "") (h2 : row.full_text_file ≠ "") :
    read env dir row
      = (splitSemiStr row.sha).flatMap
          (fileSections env dir row.full_text_file) := by
  unfold read
  rcases hsp : splitSemiStr row.sha with _ | ⟨u, us⟩
  · exact absurd hsp (splitSemiStr_ne_nil _)
  · simp [h1, h2, hsp, read_uids_foldl, readFileStep_nil]

/-- C7 witness: a body file holding a marker block and a content block:
the marker block contributes nothing and the sibling survives. -/
theorem read_filters_marker_witness :
    (cRow1.sha ≠ "") ∧ (cRow1.full_text_file ≠ "")
    ∧ read cEnv7 "d" cRow1
        = (splitSemiStr cRow1.sha).flatMap
            (fileSections cEnv7 "d" cRow1.full_text_file) :=
  ⟨by decide, by decide,
    read_filters_marker cEnv7 "d" cRow1 (by decide) (by decide)⟩

/-- C10: the identifier resolver returns either none (a duplicate
fallback identifier) or a list holding at least one identifier — never an
empty list — so taking the head of a returned list is always in
bounds. -/
theorem getIds_none_or_nonempty (env : Env) (row : Row)
    (ids : List String) :
    (getIds env row ids).1 = none
    ∨ ∃ u us, (getIds env row ids).1 = some (u :: us) := by
  by_cases h : row.sha = ""
  · unfold getIds
    by_cases hm : env.sha1 row.title ∈ ids
    · left
      simp [h, hm]
    · right
      exact ⟨env.sha1 row.title, [], by simp [h, hm]⟩
  · rcases hsp : splitSemiStr row.sha with _ | ⟨u, us⟩
    · exact absurd hsp (splitSemiStr_ne_nil _)
    · right
      refine ⟨u, us, ?_⟩
      rw [getIds_explicit env row ids h, hsp]

/-- C6: for a row with a non-empty sha field, the resolver returns the
semicolon-split identifier list as-is with the generated-id set
untouched, and the article row written for the row (when its insert
succeeds) carries the first identifier of that list, unmodified, as its
Id column. -/
theorem explicit_id_first (env : Env) (dir : String) (st : St) (r : Row)
    (h : r.sha ≠ "") :
    getIds env r st.ids = (some (splitSemiStr r.sha), st.ids)
    ∧ ((processRow env dir st r).db.articles = st.db.articles
       ∨ ∃ rest, (processRow env dir st r).db.articles
           = st.db.articles
             ++ [Value.str ((splitSemiStr r.sha).headD "") :: rest]) := by
  have hg := getIds_explicit env r st.ids h
  refine ⟨hg, ?_⟩
  rcases hsp : splitSemiStr r.sha with _ | ⟨u, us⟩
  · exact absurd hsp (splitSemiStr_ne_nil _)
  · unfold processRow
    simp only [hg, hsp]
    unfold insert
    rw [values_articles]
    by_cases hk : env.ok st.attempt = true
    · right
      exact ⟨[Value.str r.source_x, optDate (getDate env r),
              Value.str r.journal, Value.str r.authors, Value.str r.title,
              optStr (getTags (r.title :: read env dir r)),
              optStr (getReference r)], by simp [hk]⟩
    · left
      simp [hk]

/-- C6 witness: the row with sha `x`: the resolver hands back the split
list and the article written carries Id `x`. -/
theorem explicit_id_first_witness :
    (cRowX.sha ≠ "")
    ∧ (getIds cEnv3 cRowX initSt.ids
          = (some (splitSemiStr cRowX.sha), initSt.ids)
      ∧ ((processRow cEnv3 "d" initSt cRowX).db.articles
            = initSt.db.articles
        ∨ ∃ rest, (processRow cEnv3 "d" initSt cRowX).db.articles
            = initSt.db.articles
              ++ [Value.str ((splitSemiStr cRowX.sha).headD "") :: rest])) :=
  ⟨by decide, explicit_id_first cEnv3 "d" initSt cRowX (by decide)⟩

/-- C9: every Section row appended by processing one metadata row carries
in its Tags column the tag value computed once for that document, and the
Article row appended for the same document carries the same value in its
Tags column — a per-document snapshot shared by the article and all its
sections. -/
theorem tags_snapshot (env : Env) (dir : String) (st : St) (r : Row)
    (s a : List Value)
    (hs : s ∈ (processRow env dir st r).db.sections)
    (ha : a ∈ (processRow env dir st r).db.articles) :
    (s ∈ st.db.sections
      ∨ s.get? 3 = some (optStr (getTags (r.title :: read env dir r))))
    ∧ (a ∈ st.db.articles
      ∨ a.get? 6 = some (optStr (getTags (r.title :: read env dir r)))) := by
  unfold processRow at hs ha
  rcases hg : (getIds env r st.ids).1 with _ | l
  · simp only [hg] at hs ha
    exact ⟨Or.inl hs, Or.inl ha⟩
  · rcases l with _ | ⟨u, us⟩
    · simp only [hg] at hs ha
      exact ⟨Or.inl hs, Or.inl ha⟩
    · simp only [hg] at hs ha
      constructor
      · rcases insertSections_mem env u (getTags (r.title :: read env dir r))
            _ _ _ _ s hs with hin | ⟨i, text, hseq⟩
        · exact Or.inl hin
        · right
          subst hseq
          rfl
      · unfold insert at ha
        rw [values_articles] at ha
        dsimp only at ha
        by_cases hk : env.ok st.attempt = true
        · rw [if_pos hk] at ha
          rcases List.mem_append.mp ha with h' | h'
          · exact Or.inl h'
          · right
            have haeq : a = [Value.str u, Value.str r.source_x,
                optDate (getDate env r), Value.str r.journal,
                Value.str r.authors, Value.str r.title,
                optStr (getTags (r.title :: read env dir r)),
                optStr (getReference r)] := by
              simpa using h'
            subst haeq
            rfl
        · rw [if_neg hk] at ha
          exact Or.inl ha

/-- C9 witness: processing the row with sha `x` and title `T2` from the
empty state: the one section row and the one article row both carry the
document's tag snapshot. -/
theorem tags_snapshot_witness :
    (cSec9 ∈ (processRow cEnv3 "d" initSt cRowX).db.sections)
    ∧ (cArt9 ∈ (processRow cEnv3 "d" initSt cRowX).db.articles)
    ∧ ((cSec9 ∈ initSt.db.sections
        ∨ cSec9.get? 3
            = some (optStr (getTags (cRowX.title :: read cEnv3 "d" cRowX))))
      ∧ (cArt9 ∈ initSt.db.articles
        ∨ cArt9.get? 6
            = some (optStr (getTags (cRowX.title :: read cEnv3 "d" cRowX))))) :=
  ⟨by decide, by decide,
    tags_snapshot cEnv3 "d" initSt cRowX cSec9 cArt9 (by decide) (by decide)⟩

/-- C8 witness: a three-column schema exercising the BOOLEAN rule at
column 1. -/
theorem values_coerces_by_type_witness :
    (values cTable cRowVals = some cResVals)
    ∧ (cTable.get? 1 = some ("B", "BOOLEAN"))
    ∧ (cRowVals.get? 1 = some (Value.str "TRUE"))
    ∧ cResVals.get? 1 = coerceSpec ("B", "BOOLEAN").2 (Value.str "TRUE") :=
  ⟨by decide, by decide, by decide,
    values_coerces_by_type cTable cRowVals cResVals 1 ("B", "BOOLEAN")
      (Value.str "TRUE") (by decide) (by decide) (by decide)⟩

/-- C1: a run over one metadata row with sha `abc`, title `T` and subset
`S`, whose body file at the derived path holds the single block
`Hello world.`, produces exactly one Article row, with Id `abc`, and
exactly two Section rows in order: the title fragment `T` and the body
fragment `Hello world.`, both referencing article `abc`. -/
theorem run_end_to_end (env : Env) (dir pt srcx journal authors doi : String)
    (hok : env.ok = fun _ => true)
    (hfs : env.fs (articlePath dir "S" "abc") = some ["Hello world."])
    (htok : env.tok "Hello world." = ["Hello world."]) :
    (∃ rest,
      (run env dir
          [⟨"abc", "T", pt, srcx, journal, authors, doi, "S"⟩]).db.articles
        = [Value.str "abc" :: rest])
    ∧ (run env dir
          [⟨"abc", "T", pt, srcx, journal, authors, doi, "S"⟩]).db.sections
        = [[Value.int 0, Value.str "abc", Value.str "T", Value.null],
           [Value.int 1, Value.str "abc", Value.str "Hello world.",
            Value.null]] := by
  have hok0 : env.ok 0 = true := by rw [hok]
  have hok1 : env.ok 1 = true := by rw [hok]
  have hok2 : env.ok 2 = true := by rw [hok]
  have hsp : splitSemiStr "abc" = ["abc"] := by decide
  have hne : ("abc" : String) ≠ "" := by decide
  have hS : ("S" : String) ≠ "" := by decide
  have hmark : containsSubstr "Hello world." marker = false := by decide
  have htags : getTags ["T", "Hello world."] = none := by decide
  have hread :
      read env dir ⟨"abc", "T", pt, srcx, journal, authors, doi, "S"⟩
        = ["Hello world."] := by
    unfold read
    simp [hne, hS, hsp, readFileStep, hfs, readBlockStep, hmark, htok]
  have hgid :
      getIds env ⟨"abc", "T", pt, srcx, journal, authors, doi, "S"⟩ []
        = (some ["abc"], []) := by
    rw [getIds_explicit env _ [] hne]
    simp [hsp]
  refine ⟨⟨[Value.str srcx,
      optDate (getDate env ⟨"abc", "T", pt, srcx, journal, authors, doi, "S"⟩),
      Value.str journal, Value.str authors, Value.str "T", Value.null,
      optStr (getReference
        ⟨"abc", "T", pt, srcx, journal, authors, doi, "S"⟩)], ?_⟩, ?_⟩ <;>
    simp [run, runRows, processRow, initSt, hgid, hread, htags, insert,
      insertSections, values_articles, values_sections, hok0, hok1, hok2,
      optStr]

/-- C1 witness: the concrete environment with the body file at
`d/S/S/abc.json` and an always-succeeding store. -/
theorem run_end_to_end_witness :
    (cEnv1.ok = fun _ => true)
    ∧ (cEnv1.fs (articlePath "d" "S" "abc") = some ["Hello world."])
    ∧ (cEnv1.tok "Hello world." = ["Hello world."])
    ∧ ((∃ rest,
        (run cEnv1 "d" [⟨"abc", "T", "", "", "", "", "", "S"⟩]).db.articles
          = [Value.str "abc" :: rest])
      ∧ (run cEnv1 "d" [⟨"abc", "T", "", "", "", "", "", "S"⟩]).db.sections
          = [[Value.int 0, Value.str "abc", Value.str "T", Value.null],
             [Value.int 1, Value.str "abc", Value.str "Hello world.",
              Value.null]]) :=
  ⟨rfl, by decide, rfl,
    run_end_to_end cEnv1 "d" "" "" "" "" "" rfl (by decide) rfl⟩

end Etl

end Cord19
